import Mathlib

/-!
Verification of the Febrl `output.py` module (histogram generation, match
status export, match-identifier assignment, weight-vector loading).

The Python code is shallowly embedded as follows:

* A Python `dict` is an association list (`List (κ × ν)`) with unique keys in
  insertion order; `dict.get k default` is `dget`, `d[k] = v` is `dset`
  (replace in place, else append), `k in d` is `(dlookup d k).isSome`,
  `dict.popitem()` removes the last entry (CPython LIFO order) and re-adding
  the same key appends it at the end (`popReinsert`).
* Python floats are modelled as exact rationals `ℚ`; `%` on them is the
  floor-style modulo `pymod` (result has the sign of the divisor), `int(x)`
  for the non-negative quantities involved is `⌊x⌋.toNat`.
* Python strings are `List Char` where character content matters (`str(n)` is
  `numStr`, `str.zfill` is `zfill`, `";".join` is via `List.intercalate`);
  fixed report text is kept as `String` literals copied from the source.
* A Python `set` of record-id pairs is a `Finset`; `sorted(set)` /
  `list(set); list.sort()` is `List.insertionSort` by the (lexicographic)
  order of the pairs, taken as an arbitrary decidable relation parameter.
* Record identifiers and record-id pairs are opaque, so they are a type
  parameter; the concrete instances use `ℕ` and `ℕ × ℕ` with the
  lexicographic comparison `pairLe`.
* `GenerateHistogram` returns, besides the text lines, the effects the Python
  function has: warnings logged, the optional file write, and the final state
  of the weight-vector dictionary.  Fatal paths (`raise Exception`,
  `assert`, `KeyError`) are `Except.error` values of `OutErr`.
* File/CSV/gzip I/O itself is external to the module's logic and is not
  modelled: `LoadWeightVectorFile` takes the already-parsed data rows and
  models the dictionary-building loop (output.py lines 584-605), and the
  dataset abstraction consumed by `SaveMatchDataSet` is external, so
  `SaveMatchDataSet` models the match-identifier dictionaries the function
  builds (lines 366-401) and `matchIdField` the `";".join` field value it
  writes per record (lines 459-461).
-/

/-- Lookup in a Python-style dictionary: the value at the first (unique)
matching key. -/
def dlookup {κ ν : Type} [DecidableEq κ] : List (κ × ν) → κ → Option ν
  | [], _ => none
  | (k, v) :: rest, key => if key = k then some v else dlookup rest key

/-- Python `dict.get(key, dflt)`. -/
def dget {κ ν : Type} [DecidableEq κ] (d : List (κ × ν)) (key : κ) (dflt : ν) : ν :=
  (dlookup d key).getD dflt

/-- Python `d[key] = v`: replace the value in place if the key is present,
else append the new entry at the end. -/
def dset {κ ν : Type} [DecidableEq κ] : List (κ × ν) → κ → ν → List (κ × ν)
  | [], key, v => [(key, v)]
  | (k, w) :: rest, key, v =>
      if key = k then (k, v) :: rest else (k, w) :: dset rest key v

/-- Sum of a histogram dictionary's counts (`sum(histo_dict.values())`). -/
def sumValues (d : List (ℚ × ℕ)) : ℕ := (d.map Prod.snd).sum

/-- Python's float `%` (floor modulo: the result has the sign of the
divisor), on exact rationals. -/
def pymod (a b : ℚ) : ℚ := a - b * ⌊a / b⌋

/-- The bin key of a weight vector: `w_sum - (w_sum % bin_width)`
(output.py lines 159-160). -/
def binKey (wv : List ℚ) (bw : ℚ) : ℚ := wv.sum - pymod wv.sum bw

/-- Decimal digit character to value (`'7'` to `7`). -/
def charVal (c : Char) : ℕ := c.toNat - 48

/-- Python `str(n)` for a natural number: big-endian decimal digits. -/
def numStr (n : ℕ) : List Char :=
  if n = 0 then ['0'] else ((Nat.digits 10 n).map Nat.digitChar).reverse

/-- Python `str.zfill(w)` for a digit string: left-pad with `'0'` to width
`w` (no-op when already at least that long). -/
def zfill (w : ℕ) (s : List Char) : List Char :=
  List.replicate (w - s.length) '0' ++ s

/-- The match-identifier digit width `max(1, ceil(log10 N))` (with width 1
for `N = 0`): `Nat.clog 10 N` is exactly the least `k` with `N ≤ 10 ^ k`,
i.e. `⌈log10 N⌉` (output.py lines 285-288 and 369-372). -/
def numDigit (n : ℕ) : ℕ := max 1 (Nat.clog 10 n)

/-- The match identifier `"mid" + str(i).zfill(w)`. -/
def midStr (w i : ℕ) : List Char := 'm' :: 'i' :: 'd' :: zfill w (numStr i)

/-- Decode a digit string back to the number it denotes (used to prove that
`midStr` is injective). -/
def unrender (s : List Char) : ℕ := Nat.ofDigits 10 ((s.map charVal).reverse)

/-- Assign match identifiers `midStr w i, midStr w (i+1), ...` along a list
of pairs: the `mid_count` counter loop shared by `SaveMatchStatusFile` and
`SaveMatchDataSet`. -/
def assignFrom {P : Type} (w : ℕ) : ℕ → List P → List (P × List Char)
  | _, [] => []
  | i, p :: rest => (p, midStr w i) :: assignFrom w (i + 1) rest

/-- Sort the match set and pair each entry with its sequential match
identifier, the counter starting at 1 and the digit width computed from the
match set's size. -/
def matchIdsOf {P : Type} (r : P → P → Prop) [DecidableRel r] (matchSet : List P) :
    List (P × List Char) :=
  assignFrom (numDigit matchSet.length) 1 (List.insertionSort r matchSet)

/-- Fatal outcomes of the module's functions: `raise Exception` from argument
validation, the `assert` before rendering, and the uncaught `KeyError` of an
unguarded dictionary lookup. -/
inductive OutErr : Type
  | validation
  | assertionFailed
  | keyError
deriving DecidableEq

/-- Non-fatal logged warnings. -/
inductive OutWarning : Type
  | emptyDict
  | dupKey
deriving DecidableEq

/-- The row loop of `SaveMatchStatusFile` (lines 299-311): one output row
`(pair, summed weight, match identifier)` per sorted matched pair, with an
uncaught `KeyError` on a pair missing from the weight-vector dictionary. -/
def statusRows {P : Type} [DecidableEq P] (wdict : List (P × List ℚ)) :
    List (P × List Char) → Except OutErr (List (P × ℚ × List Char))
  | [] => .ok []
  | pm :: rest =>
    match dlookup wdict pm.1 with
    | none => .error .keyError
    | some wv =>
      match statusRows wdict rest with
      | .error e => .error e
      | .ok rs => .ok ((pm.1, wv.sum, pm.2) :: rs)

/-- `SaveMatchStatusFile`: the rows written to the CSV file (the file handle
itself is external I/O). -/
def SaveMatchStatusFile {P : Type} [DecidableEq P] (r : P → P → Prop) [DecidableRel r]
    (wdict : List (P × List ℚ)) (matchSet : List P) :
    Except OutErr (List (P × ℚ × List Char)) :=
  statusRows wdict (matchIdsOf r matchSet)

/-- The match-identifier dictionary loop of `SaveMatchDataSet` (lines
381-401): in linkage mode (`doLink = true`) the pair's first element updates
the first dictionary and its second element the second dictionary; in
deduplication mode both elements update the first (shared) dictionary. -/
def buildMatchIdLists {R : Type} [DecidableEq R] (doLink : Bool) :
    List ((R × R) × List Char) →
    List (R × List (List Char)) × List (R × List (List Char)) →
    List (R × List (List Char)) × List (R × List (List Char))
  | [], acc => acc
  | ((r1, r2), mid) :: rest, (d1, d2) =>
    let d1a := dset d1 r1 (dget d1 r1 [] ++ [mid])
    if doLink then
      buildMatchIdLists doLink rest (d1a, dset d2 r2 (dget d2 r2 [] ++ [mid]))
    else
      buildMatchIdLists doLink rest (dset d1a r2 (dget d1a r2 [] ++ [mid]), d2)

/-- `SaveMatchDataSet`'s match-identifier assignment: the pair of
membership dictionaries (record identifier to list of match identifiers)
built from the sorted match set. -/
def SaveMatchDataSet {R : Type} [DecidableEq R] (r : (R × R) → (R × R) → Prop)
    [DecidableRel r] (matchSet : List (R × R)) (doLink : Bool) :
    List (R × List (List Char)) × List (R × List (List Char)) :=
  buildMatchIdLists doLink (matchIdsOf r matchSet) ([], [])

/-- The match-identifier field value written for one record:
`";".join(match_id_dict.get(rec_id, []))` (lines 459-461). -/
def matchIdField {R : Type} [DecidableEq R] (d : List (R × List (List Char))) (recId : R) :
    List Char :=
  List.intercalate [';'] (dget d recId [])

/-- The dictionary-building loop of `LoadWeightVectorFile` (lines 586-601):
accumulate warnings for repeated keys and overwrite on repetition. -/
def loadGo {K : Type} [DecidableEq K] :
    List (K × List ℚ) → List OutWarning × List (K × List ℚ) →
    List OutWarning × List (K × List ℚ)
  | [], acc => acc
  | (k, wv) :: rest, (ws, d) =>
    loadGo rest (ws ++ (if (dlookup d k).isSome then [.dupKey] else []), dset d k wv)

/-- `LoadWeightVectorFile` on already-parsed data rows: the warnings logged
and the weight-vector dictionary returned. -/
def LoadWeightVectorFile {K : Type} [DecidableEq K] (rows : List (K × List ℚ)) :
    List OutWarning × List (K × List ℚ) :=
  loadGo rows ([], [])

/-- The mutable state of the weight-vector scan of `GenerateHistogram`
(lines 146-177): the combined histogram, the three per-class histograms, and
the running maximum combined count (initially `-1`). -/
structure ScanState (P : Type) : Type where
  histo : List (ℚ × ℕ)
  matchH : List (ℚ × ℕ)
  nonMatchH : List (ℚ × ℕ)
  possH : List (ℚ × ℕ)
  maxCount : ℤ

/-- Initial scan state. -/
def initScan {P : Type} : ScanState P := ⟨[], [], [], [], -1⟩

/-- One iteration of the scan loop (lines 157-177). -/
def scanStep {P : Type} [DecidableEq P] (ms : Option (Finset P × Finset P × Finset P))
    (bw : ℚ) (st : ScanState P) (e : P × List ℚ) : ScanState P :=
  let b := binKey e.2 bw
  let c := dget st.histo b 0 + 1
  let st1 : ScanState P :=
    { st with
      histo := dset st.histo b c
      maxCount := if st.maxCount < (c : ℤ) then (c : ℤ) else st.maxCount }
  match ms with
  | none => st1
  | some (m0, m1, _) =>
    if e.1 ∈ m0 then
      { st1 with matchH := dset st1.matchH b (dget st1.matchH b 0 + 1) }
    else if e.1 ∈ m1 then
      { st1 with nonMatchH := dset st1.nonMatchH b (dget st1.nonMatchH b 0 + 1) }
    else
      { st1 with possH := dset st1.possH b (dget st1.possH b 0 + 1) }

/-- The scan loop over all dictionary entries. -/
def scanGo {P : Type} [DecidableEq P] (ms : Option (Finset P × Finset P × Finset P))
    (bw : ℚ) : List (P × List ℚ) → ScanState P → ScanState P
  | [], st => st
  | e :: rest, st => scanGo ms bw rest (scanStep ms bw st e)

/-- `dict.popitem()` of the last entry followed by re-inserting the same key
and value (lines 140-144). -/
def popReinsert {P : Type} (l : List (P × List ℚ)) : List (P × List ℚ) :=
  match l.getLast? with
  | none => l
  | some e => l.dropLast ++ [e]

/-- One line of the rendered histogram: either fixed text or a data row
carrying its displayed count columns, its bin key, and its bar of `'*'`. -/
inductive HistoLine : Type
  | text (s : String)
  | row (counts : List ℕ) (xVal : ℚ) (bar : List Char)
deriving DecidableEq

/-- What a call of `GenerateHistogram` produces: warnings logged, the text
lines returned, the optional file write performed, and the weight-vector
dictionary as the call leaves it. -/
structure HistoResult (P : Type) : Type where
  warnings : List OutWarning
  lines : List HistoLine
  fileWrite : Option (String × List HistoLine)
  finalDict : List (P × List ℚ)

/-- The bin keys in ascending order (`x_vals.sort()`, lines 181-182). -/
def sortKeys (h : List (ℚ × ℕ)) : List ℚ :=
  List.insertionSort (· ≤ ·) (h.map Prod.fst)

/-- The bar of a data row: `"*" * int(this_count * scale_factor_y)`. -/
def starBar (c : ℕ) (sf : ℚ) : List Char :=
  List.replicate (⌊(c : ℚ) * sf⌋).toNat '*'

/-- One data row of the histogram (lines 210-237): its count columns follow
the report shape, its bar always uses the combined count. -/
def rowFor {P : Type} [DecidableEq P] (ms : Option (Finset P × Finset P × Finset P))
    (st : ScanState P) (sf : ℚ) (x : ℚ) : HistoLine :=
  let c := dget st.histo x 0
  match ms with
  | none => .row [c] x (starBar c sf)
  | some _ =>
    if st.possH.length = 0 then
      .row [dget st.matchH x 0, dget st.nonMatchH x 0] x (starBar c sf)
    else
      .row [dget st.matchH x 0, dget st.nonMatchH x 0, dget st.possH x 0] x (starBar c sf)

/-- The table header of the chosen report shape (lines 199-209). -/
def headerFor {P : Type} (ms : Option (Finset P × Finset P × Finset P))
    (st : ScanState P) : List HistoLine :=
  match ms with
  | none => [.text "  Counts  | w_sum |", .text "-------------------"]
  | some _ =>
    if st.possH.length = 0 then
      [.text "       Counts        |", .text "  Match   | Non-Match| w_sum |",
       .text "------------------------------"]
    else
      [.text "              Counts            |",
       .text "  Match   | Non-Match|Poss-Match| w_sum |",
       .text "-----------------------------------------"]

/-- The full rendered histogram for a given reserved prefix width: scale
factor `(80 - reserved) / max_bin_w_count`, then title, header, one data row
per bin key in ascending order, and a closing blank line. -/
def histoLinesWith {P : Type} [DecidableEq P] (ms : Option (Finset P × Finset P × Finset P))
    (st : ScanState P) (reserved : ℕ) : List HistoLine :=
  let sf : ℚ := ((80 - reserved : ℕ) : ℚ) / (st.maxCount : ℚ)
  [.text "Weight histogram:", .text "-----------------"] ++ headerFor ms st ++
    (sortKeys st.histo).map (rowFor ms st sf) ++ [.text ""]

/-- The reserved prefix width the code uses (lines 186-191): 19 with no
match sets, else 30 when the possible-match histogram stayed empty, else
41. -/
def reservedWidth {P : Type} (ms : Option (Finset P × Finset P × Finset P))
    (st : ScanState P) : ℕ :=
  match ms with
  | none => 19
  | some _ => if st.possH.length = 0 then 30 else 41

/-- The body of `GenerateHistogram` after argument validation (lines
132-260): empty-dictionary early return, `popitem` and re-insert, the scan,
the `assert`, rendering, and the optional file write. -/
def histogramBody {P : Type} [DecidableEq P] (wdict : List (P × List ℚ)) (bw : ℚ)
    (fn : Option String) (ms : Option (Finset P × Finset P × Finset P)) :
    Except OutErr (HistoResult P) :=
  match wdict with
  | [] => .ok ⟨[.emptyDict], [], none, []⟩
  | e :: rest =>
    let wdict2 := popReinsert (e :: rest)
    let st := scanGo ms bw wdict2 initScan
    if sumValues st.histo = wdict2.length then
      let lines := histoLinesWith ms st (reservedWidth ms st)
      .ok ⟨[], lines, fn.map (fun nm => (nm, lines)), wdict2⟩
    else .error .assertionFailed

/-- `GenerateHistogram` (lines 84-260): bin width and match-set size
validation, then the body.  The tuple/set shape checks of lines 115-122 are
enforced by typing. -/
def GenerateHistogram {P : Type} [DecidableEq P] (wdict : List (P × List ℚ)) (bw : ℚ)
    (fn : Option String) (ms : Option (Finset P × Finset P × Finset P)) :
    Except OutErr (HistoResult P) :=
  if bw ≤ 0 then .error .validation
  else
    match ms with
    | some (m0, m1, m2) =>
      if wdict.length = m0.card + m1.card + m2.card then
        histogramBody wdict bw fn (some (m0, m1, m2))
      else .error .validation
    | none => histogramBody wdict bw fn none

/-- The state of the weight-vector dictionary after a call: the result's
final dictionary on success, the unchanged input on a fatal error. -/
def finalDictOf {P : Type} (res : Except OutErr (HistoResult P))
    (orig : List (P × List ℚ)) : List (P × List ℚ) :=
  match res with
  | .ok r => r.finalDict
  | .error _ => orig

/-- Whether a call returned normally. -/
def isOkB {P : Type} (res : Except OutErr (HistoResult P)) : Bool :=
  match res with
  | .ok _ => true
  | .error _ => false

/-- Whether a call failed on the `assert` of line 184. -/
def isAssertFail {P : Type} (res : Except OutErr (HistoResult P)) : Bool :=
  match res with
  | .error .assertionFailed => true
  | _ => false

/-- The validation-size predicate of lines 123-130: with match sets given,
the dictionary size must equal the summed set sizes. -/
def sizeOk {P : Type} (wdict : List (P × List ℚ))
    (ms : Option (Finset P × Finset P × Finset P)) : Prop :=
  match ms with
  | none => True
  | some (m0, m1, m2) => wdict.length = m0.card + m1.card + m2.card

/-- Modelled from the spec: the reserved prefix width stated in terms of the
supplied classification sets — 19 with no partition, 30 when the
possible-match set is empty, 41 otherwise. -/
def reservedSpec {P : Type} [DecidableEq P] (ms : Option (Finset P × Finset P × Finset P)) : ℕ :=
  match ms with
  | none => 19
  | some (_, _, m2) => if m2 = ∅ then 30 else 41

/-- Modelled from the spec: the rendered histogram with the scale factor
computed from `reservedSpec`, i.e. `(80 - reserved) / max_combined_count`
with the reserved width determined by the possible-match set. -/
def specHistoLines {P : Type} [DecidableEq P] (wdict : List (P × List ℚ)) (bw : ℚ)
    (ms : Option (Finset P × Finset P × Finset P)) : List HistoLine :=
  histoLinesWith ms (scanGo ms bw (popReinsert wdict) initScan) (reservedSpec ms)

/-- A genuine classification partition of the dictionary's keys: pairwise
disjoint sets that together cover exactly the keys (which are unique). -/
def GoodPartition {P : Type} [DecidableEq P] (wdict : List (P × List ℚ))
    (m0 m1 m2 : Finset P) : Prop :=
  (∀ p ∈ m0, p ∉ m1) ∧ (∀ p ∈ m0, p ∉ m2) ∧ (∀ p ∈ m1, p ∉ m2) ∧
  (∀ p ∈ wdict.map Prod.fst, p ∈ m0 ∨ p ∈ m1 ∨ p ∈ m2) ∧
  (∀ p ∈ m0, p ∈ wdict.map Prod.fst) ∧ (∀ p ∈ m1, p ∈ wdict.map Prod.fst) ∧
  (∀ p ∈ m2, p ∈ wdict.map Prod.fst) ∧ (wdict.map Prod.fst).Nodup

/-- Either no match sets, or a genuine partition. -/
def PartitionHyp {P : Type} [DecidableEq P] (wdict : List (P × List ℚ))
    (ms : Option (Finset P × Finset P × Finset P)) : Prop :=
  match ms with
  | none => True
  | some (m0, m1, m2) => GoodPartition wdict m0 m1 m2

/-- Lexicographic comparison of pairs of naturals, as Python compares
tuples. -/
def pairLe (a b : ℕ × ℕ) : Prop :=
  a.1 < b.1 ∨ (a.1 = b.1 ∧ a.2 ≤ b.2)

instance : DecidableRel pairLe := fun a b => by
  unfold pairLe; infer_instance

/-! ### Dictionary lemmas -/

theorem dlookup_dset {κ ν : Type} [DecidableEq κ] (d : List (κ × ν)) (key : κ) (v : ν)
    (key2 : κ) :
    dlookup (dset d key v) key2 = if key2 = key then some v else dlookup d key2 := by
  induction d with
  | nil => simp [dset, dlookup]
  | cons e rest ih =>
    obtain ⟨k, w⟩ := e
    by_cases hk : key = k
    · subst hk
      by_cases h2 : key2 = key <;> simp [dset, dlookup, h2]
    · by_cases h2 : key2 = key
      · subst h2
        simp [dset, hk, dlookup, ih]
      · by_cases h3 : key2 = k
        · simp only [dset, if_neg hk, dlookup, if_pos h3, ih, if_neg h2]
        · simp [dset, hk, dlookup, h3, ih, h2]

theorem dget_dset {κ ν : Type} [DecidableEq κ] (d : List (κ × ν)) (key : κ) (v : ν)
    (key2 : κ) (dflt : ν) :
    dget (dset d key v) key2 dflt = if key2 = key then v else dget d key2 dflt := by
  unfold dget
  rw [dlookup_dset]
  by_cases h : key2 = key <;> simp [h]

theorem dset_ne_nil {κ ν : Type} [DecidableEq κ] (d : List (κ × ν)) (key : κ) (v : ν) :
    dset d key v ≠ [] := by
  cases d with
  | nil => simp [dset]
  | cons e rest =>
    obtain ⟨k, w⟩ := e
    by_cases h : key = k <;> simp [dset, h]

theorem sumValues_dset_incr [inst : DecidableEq ℚ] (d : List (ℚ × ℕ)) (k : ℚ) :
    sumValues (dset d k (dget d k 0 + 1)) = sumValues d + 1 := by
  induction d with
  | nil => simp [dset, dget, dlookup, sumValues]
  | cons e rest ih =>
    obtain ⟨k0, w⟩ := e
    by_cases h : k = k0
    · subst h
      simp [dset, dget, dlookup, sumValues]
      omega
    · have hg : dget ((k0, w) :: rest) k 0 = dget rest k 0 := by
        simp [dget, dlookup, h]
      rw [hg] at *
      simp [dset, h, sumValues] at *
      omega

/-! ### Match-identifier string lemmas -/

theorem charVal_digitChar : ∀ d : ℕ, d < 10 → charVal (Nat.digitChar d) = d := by
  decide

theorem ofDigits_replicate_zero (k : ℕ) : Nat.ofDigits 10 (List.replicate k 0) = 0 := by
  induction k with
  | zero => simp [Nat.ofDigits]
  | succ n ih => simp [List.replicate, Nat.ofDigits, ih]

theorem unrender_zfill (w : ℕ) (s : List Char) : unrender (zfill w s) = unrender s := by
  unfold unrender zfill
  have hcv : charVal '0' = 0 := by decide
  rw [List.map_append, List.map_replicate, hcv, List.reverse_append,
    List.reverse_replicate, Nat.ofDigits_append, ofDigits_replicate_zero]
  simp

theorem unrender_numStr (n : ℕ) : unrender (numStr n) = n := by
  by_cases h : n = 0
  · subst h
    simp [unrender, numStr, Nat.ofDigits]
    decide
  · unfold unrender numStr
    rw [if_neg h, List.map_reverse, List.reverse_reverse, List.map_map]
    have hmem : ∀ d ∈ Nat.digits 10 n, (charVal ∘ Nat.digitChar) d = id d :=
      fun d hd => charVal_digitChar d (Nat.digits_lt_base (by norm_num) hd)
    rw [List.map_congr_left hmem, List.map_id, Nat.ofDigits_digits]

theorem midStr_inj (w : ℕ) : Function.Injective (midStr w) := by
  intro i j h
  simp only [midStr, List.cons.injEq, true_and] at h
  have h2 := congrArg unrender h
  rwa [unrender_zfill, unrender_zfill, unrender_numStr, unrender_numStr] at h2

/-! ### Identifier assignment lemmas -/

theorem assignFrom_map_fst {P : Type} (w : ℕ) :
    ∀ (i : ℕ) (l : List P), (assignFrom w i l).map Prod.fst = l := by
  intro i l
  induction l generalizing i with
  | nil => rfl
  | cons p rest ih => simp [assignFrom, ih]

theorem assignFrom_map_snd {P : Type} (w : ℕ) :
    ∀ (i : ℕ) (l : List P),
      (assignFrom w i l).map Prod.snd = (List.range' i l.length).map (midStr w) := by
  intro i l
  induction l generalizing i with
  | nil => rfl
  | cons p rest ih => simp [assignFrom, ih, List.range'_succ]

theorem assignFrom_length {P : Type} (w : ℕ) :
    ∀ (i : ℕ) (l : List P), (assignFrom w i l).length = l.length := by
  intro i l
  induction l generalizing i with
  | nil => rfl
  | cons p rest ih => simp [assignFrom, ih]

theorem popReinsert_eq {P : Type} (l : List (P × List ℚ)) : popReinsert l = l := by
  cases l with
  | nil => rfl
  | cons e rest =>
    have hne : e :: rest ≠ [] := List.cons_ne_nil e rest
    unfold popReinsert
    rw [List.getLast?_eq_getLast (e :: rest) hne]
    exact List.dropLast_append_getLast hne

/-! ### Scan lemmas -/

theorem scanStep_histo {P : Type} [DecidableEq P]
    (ms : Option (Finset P × Finset P × Finset P)) (bw : ℚ) (st : ScanState P)
    (e : P × List ℚ) :
    (scanStep ms bw st e).histo =
      dset st.histo (binKey e.2 bw) (dget st.histo (binKey e.2 bw) 0 + 1) := by
  cases ms with
  | none => rfl
  | some t =>
    obtain ⟨m0, m1, m2⟩ := t
    simp only [scanStep]
    by_cases h0 : e.1 ∈ m0
    · simp [h0]
    · by_cases h1 : e.1 ∈ m1 <;> simp [h0, h1]

theorem scanGo_sumValues {P : Type} [DecidableEq P]
    (ms : Option (Finset P × Finset P × Finset P)) (bw : ℚ) :
    ∀ (l : List (P × List ℚ)) (st : ScanState P),
      sumValues (scanGo ms bw l st).histo = sumValues st.histo + l.length := by
  intro l
  induction l with
  | nil => intro st; simp [scanGo]
  | cons e rest ih =>
    intro st
    rw [scanGo, ih, List.length_cons]
    have h := scanStep_histo ms bw st e
    rw [h, sumValues_dset_incr]
    omega

theorem scanStep_possH {P : Type} [DecidableEq P] (m0 m1 m2 : Finset P) (bw : ℚ)
    (st : ScanState P) (e : P × List ℚ) :
    (scanStep (some (m0, m1, m2)) bw st e).possH =
      if e.1 ∈ m0 ∨ e.1 ∈ m1 then st.possH
      else dset st.possH (binKey e.2 bw) (dget st.possH (binKey e.2 bw) 0 + 1) := by
  simp only [scanStep]
  by_cases h0 : e.1 ∈ m0
  · simp [h0]
  · by_cases h1 : e.1 ∈ m1 <;> simp [h0, h1]

theorem scanGo_possH_empty_iff {P : Type} [DecidableEq P] (m0 m1 m2 : Finset P)
    (bw : ℚ) :
    ∀ (l : List (P × List ℚ)) (st : ScanState P),
      (scanGo (some (m0, m1, m2)) bw l st).possH = [] ↔
        st.possH = [] ∧ ∀ e ∈ l, e.1 ∈ m0 ∨ e.1 ∈ m1 := by
  intro l
  induction l with
  | nil => intro st; simp [scanGo]
  | cons e rest ih =>
    intro st
    rw [scanGo, ih]
    rw [scanStep_possH]
    by_cases hm : e.1 ∈ m0 ∨ e.1 ∈ m1
    · rw [if_pos hm]
      constructor
      · rintro ⟨h1, h2⟩
        exact ⟨h1, fun x hx => by
          rcases List.mem_cons.mp hx with h | h
          · subst h; exact hm
          · exact h2 x h⟩
      · rintro ⟨h1, h2⟩
        exact ⟨h1, fun x hx => h2 x (List.mem_cons_of_mem e hx)⟩
    · rw [if_neg hm]
      constructor
      · rintro ⟨h1, _⟩
        exact absurd h1 (dset_ne_nil _ _ _)
      · rintro ⟨_, h2⟩
        exact absurd (h2 e (List.mem_cons_self e rest)) hm

/-! ### GenerateHistogram path lemmas -/

theorem histogramBody_ok {P : Type} [DecidableEq P] (wdict : List (P × List ℚ))
    (bw : ℚ) (fn : Option String) (ms : Option (Finset P × Finset P × Finset P))
    (h : wdict ≠ []) :
    histogramBody wdict bw fn ms =
      .ok ⟨[],
        histoLinesWith ms (scanGo ms bw wdict initScan)
          (reservedWidth ms (scanGo ms bw wdict initScan)),
        fn.map (fun nm =>
          (nm, histoLinesWith ms (scanGo ms bw wdict initScan)
            (reservedWidth ms (scanGo ms bw wdict initScan)))),
        wdict⟩ := by
  cases wdict with
  | nil => exact absurd rfl h
  | cons e rest =>
    have hpr : popReinsert (e :: rest) = e :: rest := popReinsert_eq _
    have hsum : sumValues (scanGo ms bw (e :: rest) initScan).histo =
        (e :: rest).length := by
      rw [scanGo_sumValues]
      simp [initScan, sumValues]
    simp only [histogramBody, hpr]
    rw [if_pos hsum]

theorem GenerateHistogram_eq_body {P : Type} [DecidableEq P] (wdict : List (P × List ℚ))
    (bw : ℚ) (fn : Option String) (ms : Option (Finset P × Finset P × Finset P))
    (h : 0 < bw) (hsz : sizeOk wdict ms) :
    GenerateHistogram wdict bw fn ms = histogramBody wdict bw fn ms := by
  unfold GenerateHistogram
  rw [if_neg (not_le.mpr h)]
  cases ms with
  | none => rfl
  | some t =>
    obtain ⟨m0, m1, m2⟩ := t
    exact if_pos hsz

/-! ### Partition lemmas -/

theorem goodPartition_sizeOk {P : Type} [DecidableEq P] (wdict : List (P × List ℚ))
    (m0 m1 m2 : Finset P) (hg : GoodPartition wdict m0 m1 m2) :
    sizeOk wdict (some (m0, m1, m2)) := by
  obtain ⟨h01, h02, h12, hcov, hm0, hm1, hm2, hnd⟩ := hg
  have hd01 : Disjoint m0 m1 := Finset.disjoint_left.mpr h01
  have hd02 : Disjoint m0 m2 := Finset.disjoint_left.mpr h02
  have hd12 : Disjoint m1 m2 := Finset.disjoint_left.mpr h12
  have hun : m0 ∪ m1 ∪ m2 = (wdict.map Prod.fst).toFinset := by
    apply Finset.ext
    intro p
    simp only [Finset.mem_union, List.mem_toFinset]
    constructor
    · rintro ((h | h) | h)
      · exact hm0 p h
      · exact hm1 p h
      · exact hm2 p h
    · intro hp
      rcases hcov p hp with h | h | h
      · exact Or.inl (Or.inl h)
      · exact Or.inl (Or.inr h)
      · exact Or.inr h
  have hcard : (m0 ∪ m1 ∪ m2).card = m0.card + m1.card + m2.card := by
    rw [Finset.card_union_of_disjoint (Finset.disjoint_union_left.mpr ⟨hd02, hd12⟩),
      Finset.card_union_of_disjoint hd01]
  show wdict.length = m0.card + m1.card + m2.card
  calc wdict.length = (wdict.map Prod.fst).length := (List.length_map _ _).symm
    _ = (wdict.map Prod.fst).toFinset.card := (List.toFinset_card_of_nodup hnd).symm
    _ = (m0 ∪ m1 ∪ m2).card := by rw [hun]
    _ = m0.card + m1.card + m2.card := hcard

theorem goodPartition_possH_iff {P : Type} [DecidableEq P] (wdict : List (P × List ℚ))
    (m0 m1 m2 : Finset P) (bw : ℚ) (hg : GoodPartition wdict m0 m1 m2) :
    ((scanGo (some (m0, m1, m2)) bw wdict initScan).possH = [] ↔ m2 = ∅) := by
  obtain ⟨h01, h02, h12, hcov, hm0, hm1, hm2, hnd⟩ := hg
  rw [scanGo_possH_empty_iff]
  constructor
  · rintro ⟨_, hall⟩
    by_contra hne
    obtain ⟨p, hp⟩ := Finset.nonempty_iff_ne_empty.mpr hne
    obtain ⟨e, he, hep⟩ := List.mem_map.mp (hm2 p hp)
    rcases hall e he with h | h
    · exact h02 e.1 h (hep ▸ hp)
    · exact h12 e.1 h (hep ▸ hp)
  · intro h2e
    refine ⟨rfl, fun e he => ?_⟩
    rcases hcov e.1 (List.mem_map_of_mem Prod.fst he) with h | h | h
    · exact Or.inl h
    · exact Or.inr h
    · rw [h2e] at h
      exact absurd h (Finset.not_mem_empty e.1)

theorem reservedWidth_eq_spec {P : Type} [DecidableEq P] (wdict : List (P × List ℚ))
    (bw : ℚ) (ms : Option (Finset P × Finset P × Finset P))
    (hyp : PartitionHyp wdict ms) :
    reservedWidth ms (scanGo ms bw wdict initScan) = reservedSpec ms := by
  cases ms with
  | none => rfl
  | some t =>
    obtain ⟨m0, m1, m2⟩ := t
    have hg : GoodPartition wdict m0 m1 m2 := hyp
    have hiff : (scanGo (some (m0, m1, m2)) bw wdict initScan).possH.length = 0 ↔
        m2 = ∅ := by
      rw [List.length_eq_zero]
      exact goodPartition_possH_iff wdict m0 m1 m2 bw hg
    show (if (scanGo (some (m0, m1, m2)) bw wdict initScan).possH.length = 0
        then 30 else 41) = (if m2 = ∅ then 30 else 41)
    exact if_congr hiff rfl rfl

/-! ### Membership-index lemmas -/

theorem buildDedup_dget {R : Type} [DecidableEq R] :
    ∀ (mids : List ((R × R) × List Char)) (d1 d2 : List (R × List (List Char)))
      (rec : R),
      dget ((buildMatchIdLists false mids (d1, d2)).1) rec [] =
        dget d1 rec [] ++ mids.flatMap (fun pm =>
          (if rec = pm.1.1 then [pm.2] else []) ++
          (if rec = pm.1.2 then [pm.2] else [])) := by
  intro mids
  induction mids with
  | nil => intro d1 d2 rec; simp [buildMatchIdLists]
  | cons pm rest ih =>
    intro d1 d2 rec
    obtain ⟨⟨r1, r2⟩, mid⟩ := pm
    rw [show buildMatchIdLists false (((r1, r2), mid) :: rest) (d1, d2) =
        buildMatchIdLists false rest
          (dset (dset d1 r1 (dget d1 r1 [] ++ [mid])) r2
            (dget (dset d1 r1 (dget d1 r1 [] ++ [mid])) r2 [] ++ [mid]), d2) from rfl]
    rw [ih]
    simp only [dget_dset, List.flatMap_cons]
    by_cases h2 : rec = r2
    · subst h2
      by_cases h1 : rec = r1
      · subst h1
        simp [List.append_assoc]
      · simp [h1, fun hx => h1 hx, List.append_assoc]
    · by_cases h1 : rec = r1
      · subst h1
        simp [h2, List.append_assoc]
      · simp [h1, h2, List.append_assoc]

/-! ### Status-file lemmas -/

theorem statusRows_ok {P : Type} [DecidableEq P] (wdict : List (P × List ℚ)) :
    ∀ (l : List (P × List Char)), (∀ pm ∈ l, (dlookup wdict pm.1).isSome) →
      statusRows wdict l =
        .ok (l.map (fun pm => (pm.1, ((dlookup wdict pm.1).getD []).sum, pm.2))) := by
  intro l
  induction l with
  | nil => intro _; rfl
  | cons pm rest ih =>
    intro h
    obtain ⟨wv, hwv⟩ := Option.isSome_iff_exists.mp (h pm (List.mem_cons_self pm rest))
    have hrest := ih (fun x hx => h x (List.mem_cons_of_mem pm hx))
    simp only [statusRows, hwv, hrest, List.map_cons]
    simp [hwv]

theorem statusRows_err {P : Type} [DecidableEq P] (wdict : List (P × List ℚ)) :
    ∀ (l : List (P × List Char)), (∃ pm ∈ l, dlookup wdict pm.1 = none) →
      statusRows wdict l = .error .keyError := by
  intro l
  induction l with
  | nil => rintro ⟨pm, hm, _⟩; exact absurd hm (List.not_mem_nil pm)
  | cons pm rest ih =>
    rintro ⟨pm0, hm, hn⟩
    rcases List.mem_cons.mp hm with h | h
    · subst h
      simp [statusRows, hn]
    · cases hl : dlookup wdict pm.1 with
      | none => simp [statusRows, hl]
      | some wv =>
        have := ih ⟨pm0, h, hn⟩
        simp [statusRows, hl, this]

/-! ### Loader lemmas -/

theorem getLast?_cons_or {α : Type} (a : α) (l : List α) :
    (a :: l).getLast? = l.getLast?.or (some a) := by
  cases l with
  | nil => simp
  | cons b t =>
    rw [List.getLast?_cons_cons, List.getLast?_eq_getLast (b :: t) (List.cons_ne_nil b t)]
    simp

theorem loadGo_dlookup {K : Type} [DecidableEq K] :
    ∀ (rows : List (K × List ℚ)) (ws : List OutWarning) (d : List (K × List ℚ)) (k : K),
      dlookup (loadGo rows (ws, d)).2 k =
        (((rows.filter (fun e => e.1 = k)).map Prod.snd).getLast?).or (dlookup d k) := by
  intro rows
  induction rows with
  | nil => intro ws d k; simp [loadGo]
  | cons e rest ih =>
    intro ws d k
    obtain ⟨k0, wv⟩ := e
    rw [show loadGo ((k0, wv) :: rest) (ws, d) =
        loadGo rest (ws ++ (if (dlookup d k0).isSome then [.dupKey] else []),
          dset d k0 wv) from rfl]
    rw [ih, dlookup_dset, List.filter_cons]
    by_cases hk : k0 = k
    · have hd : decide ((k0, wv).1 = k) = true := by simp [hk]
      rw [if_pos hk.symm, if_pos hd]
      rw [List.map_cons, getLast?_cons_or, Option.or_assoc]
      rfl
    · have hd : ¬ decide ((k0, wv).1 = k) = true := by simp [hk]
      rw [if_neg (fun hx => hk hx.symm), if_neg hd]

theorem loadGo_fst_shift {K : Type} [DecidableEq K] :
    ∀ (rows : List (K × List ℚ)) (ws : List OutWarning) (d : List (K × List ℚ)),
      (loadGo rows (ws, d)).1 = ws ++ (loadGo rows ([], d)).1 := by
  intro rows
  induction rows with
  | nil => intro ws d; simp [loadGo]
  | cons e rest ih =>
    intro ws d
    obtain ⟨k0, wv⟩ := e
    rw [show loadGo ((k0, wv) :: rest) (ws, d) =
        loadGo rest (ws ++ (if (dlookup d k0).isSome then [.dupKey] else []),
          dset d k0 wv) from rfl,
      show loadGo ((k0, wv) :: rest) ([], d) =
        loadGo rest ([] ++ (if (dlookup d k0).isSome then [.dupKey] else []),
          dset d k0 wv) from rfl]
    rw [ih, List.nil_append,
      ih (if (dlookup d k0).isSome then [.dupKey] else []) (dset d k0 wv),
      List.append_assoc]

theorem loadGo_warnings_nil_iff {K : Type} [DecidableEq K] :
    ∀ (rows : List (K × List ℚ)) (d : List (K × List ℚ)),
      (loadGo rows ([], d)).1 = [] ↔
        ((rows.map Prod.fst).Nodup ∧ ∀ k ∈ rows.map Prod.fst, dlookup d k = none) := by
  intro rows
  induction rows with
  | nil => intro d; simp [loadGo]
  | cons e rest ih =>
    intro d
    obtain ⟨k0, wv⟩ := e
    rw [show loadGo ((k0, wv) :: rest) ([], d) =
        loadGo rest ([] ++ (if (dlookup d k0).isSome then [.dupKey] else []),
          dset d k0 wv) from rfl,
      List.nil_append, loadGo_fst_shift, List.append_eq_nil, ih]
    have hw : ((if (dlookup d k0).isSome then ([.dupKey] : List OutWarning) else []) = []) ↔
        dlookup d k0 = none := by
      cases hdk : dlookup d k0 with
      | none => simp
      | some v => simp
    have hdl : ∀ k, dlookup (dset d k0 wv) k = none ↔ (¬ k = k0 ∧ dlookup d k = none) := by
      intro k
      rw [dlookup_dset]
      by_cases hk : k = k0 <;> simp [hk]
    constructor
    · rintro ⟨h1, hnd, hall⟩
      have hk0 : dlookup d k0 = none := hw.mp h1
      have hnotmem : k0 ∉ rest.map Prod.fst := by
        intro hmem
        exact absurd ((hdl k0).mp (hall k0 hmem)).1 (fun hx => hx rfl)
      refine ⟨List.Nodup.cons hnotmem hnd, fun k hk => ?_⟩
      rcases List.mem_cons.mp hk with h | h
      · exact h ▸ hk0
      · exact ((hdl k).mp (hall k h)).2
    · rintro ⟨hnd, hall⟩
      have hk0 : dlookup d k0 = none :=
        hall k0 (List.mem_cons_self k0 (rest.map Prod.fst))
      have hnotmem : k0 ∉ rest.map Prod.fst := (List.nodup_cons.mp hnd).1
      refine ⟨hw.mpr hk0, (List.nodup_cons.mp hnd).2, fun k hk => ?_⟩
      refine (hdl k).mpr ⟨fun hx => ?_, hall k (List.mem_cons_of_mem k0 hk)⟩
      · subst hx
        exact hnotmem hk

/-! ### Claim theorems -/

/-- C1: for every entry and every positive bin width, `GenerateHistogram`
computes the entry's bin key as `s - (s mod bin_width)` with floor modulo
(`binKey`, used by `scanStep`), and the key satisfies
`0 ≤ sum(vector) - k < bin_width`. -/
theorem C1_bin_key_bounds (wv : List ℚ) (bw : ℚ) (h : 0 < bw) :
    binKey wv bw = wv.sum - pymod wv.sum bw ∧
    0 ≤ wv.sum - binKey wv bw ∧ wv.sum - binKey wv bw < bw := by
  have hb : bw ≠ 0 := ne_of_gt h
  have hfr : wv.sum - binKey wv bw = bw * Int.fract (wv.sum / bw) := by
    unfold binKey pymod Int.fract
    field_simp
  refine ⟨rfl, ?_, ?_⟩
  · rw [hfr]
    exact mul_nonneg h.le (Int.fract_nonneg _)
  · rw [hfr]
    calc bw * Int.fract (wv.sum / bw) < bw * 1 :=
      (mul_lt_mul_left h).mpr (Int.fract_lt_one _)
    _ = bw := mul_one bw

/-- C1 witness: the bounds at the concrete weight vector `[1/2, 1/3]` and bin
width 1. -/
theorem C1_bin_key_bounds_witness :
    binKey [(1 : ℚ)/2, 1/3] 1 =
      [(1 : ℚ)/2, 1/3].sum - pymod [(1 : ℚ)/2, 1/3].sum 1 ∧
    0 ≤ [(1 : ℚ)/2, 1/3].sum - binKey [(1 : ℚ)/2, 1/3] 1 ∧
    [(1 : ℚ)/2, 1/3].sum - binKey [(1 : ℚ)/2, 1/3] 1 < 1 :=
  C1_bin_key_bounds [(1 : ℚ)/2, 1/3] 1 (by norm_num)

/-- C2: for every weight-vector mapping and bin width, the combined histogram
counts after the scan sum to the mapping's size, and the `assert` before
rendering never fails. -/
theorem C2_histogram_counts_total {P : Type} [DecidableEq P] (wdict : List (P × List ℚ))
    (bw : ℚ) (fn : Option String) (ms : Option (Finset P × Finset P × Finset P)) :
    sumValues (scanGo ms bw wdict initScan).histo = wdict.length ∧
    isAssertFail (GenerateHistogram wdict bw fn ms) = false := by
  have hsum : sumValues (scanGo ms bw wdict initScan).histo = wdict.length := by
    rw [scanGo_sumValues]
    simp [initScan, sumValues]
  refine ⟨hsum, ?_⟩
  have hbody : isAssertFail (histogramBody wdict bw fn ms) = false := by
    cases wdict with
    | nil => rfl
    | cons e rest =>
      rw [histogramBody_ok _ _ _ _ (List.cons_ne_nil e rest)]
      rfl
  unfold GenerateHistogram
  by_cases hbw : bw ≤ 0
  · rw [if_pos hbw]; rfl
  · rw [if_neg hbw]
    cases ms with
    | none => exact hbody
    | some t =>
      obtain ⟨m0, m1, m2⟩ := t
      show isAssertFail (if wdict.length = m0.card + m1.card + m2.card
        then histogramBody wdict bw fn (some (m0, m1, m2))
        else Except.error OutErr.validation) = false
      by_cases hsz : wdict.length = m0.card + m1.card + m2.card
      · rw [if_pos hsz]; exact hbody
      · rw [if_neg hsz]; rfl

/-- C7: on an empty weight-vector mapping with a positive bin width,
`GenerateHistogram` logs the warning, returns the empty line sequence, and
performs no file write even when a file name is supplied. -/
theorem C7_empty_mapping {P : Type} [DecidableEq P] (bw : ℚ) (fn : Option String)
    (h : 0 < bw) :
    GenerateHistogram ([] : List (P × List ℚ)) bw fn none =
      .ok ⟨[.emptyDict], [], none, []⟩ := by
  unfold GenerateHistogram
  rw [if_neg (not_le.mpr h)]
  rfl

/-- C7 witness: the empty-mapping behaviour at bin width 1 with a destination
file name supplied. -/
theorem C7_empty_mapping_witness :
    GenerateHistogram ([] : List (ℕ × List ℚ)) 1 (some "weights.histo") none =
      .ok ⟨[.emptyDict], [], none, []⟩ :=
  C7_empty_mapping 1 (some "weights.histo") (by norm_num)

/-- C9: `GenerateHistogram` leaves the input mapping unchanged: the entry
removed by `popitem` is re-inserted with the same key and vector, so the
dictionary after any call (including error paths) equals its value before the
call. -/
theorem C9_input_dict_unchanged {P : Type} [DecidableEq P] (wdict : List (P × List ℚ))
    (bw : ℚ) (fn : Option String) (ms : Option (Finset P × Finset P × Finset P)) :
    finalDictOf (GenerateHistogram wdict bw fn ms) wdict = wdict := by
  have hbody : finalDictOf (histogramBody wdict bw fn ms) wdict = wdict := by
    cases wdict with
    | nil => rfl
    | cons e rest =>
      rw [histogramBody_ok _ _ _ _ (List.cons_ne_nil e rest)]
      rfl
  unfold GenerateHistogram
  by_cases hbw : bw ≤ 0
  · rw [if_pos hbw]; rfl
  · rw [if_neg hbw]
    cases ms with
    | none => exact hbody
    | some t =>
      obtain ⟨m0, m1, m2⟩ := t
      show finalDictOf (if wdict.length = m0.card + m1.card + m2.card
        then histogramBody wdict bw fn (some (m0, m1, m2))
        else Except.error OutErr.validation) wdict = wdict
      by_cases hsz : wdict.length = m0.card + m1.card + m2.card
      · rw [if_pos hsz]; exact hbody
      · rw [if_neg hsz]; rfl

/-- C9 witness: the dictionary is unchanged on a concrete one-entry mapping. -/
theorem C9_input_dict_unchanged_witness :
    finalDictOf (GenerateHistogram [((0 : ℕ), [(2 : ℚ)])] 1 none none)
      [((0 : ℕ), [(2 : ℚ)])] = [((0 : ℕ), [(2 : ℚ)])] :=
  C9_input_dict_unchanged [((0 : ℕ), [(2 : ℚ)])] 1 none none

/-- C3: for a match set of size N, the identifier assignment shared by
`SaveMatchStatusFile` and `SaveMatchDataSet` (`matchIdsOf`) yields exactly N
distinct identifiers `midStr (numDigit N) i` for `i = 1..N`, assigned along
the ascending sorted order of the record-id pairs, with digit width
`max(1, ⌈log10 N⌉)`. -/
theorem C3_match_identifier_assignment {P : Type} (r : P → P → Prop) [DecidableRel r]
    [IsTotal P r] [IsTrans P r] (s : List P) :
    (matchIdsOf r s).length = s.length ∧
    (matchIdsOf r s).map Prod.fst = List.insertionSort r s ∧
    List.Sorted r ((matchIdsOf r s).map Prod.fst) ∧
    (matchIdsOf r s).map Prod.snd =
      (List.range' 1 s.length).map (midStr (numDigit s.length)) ∧
    ((matchIdsOf r s).map Prod.snd).Nodup ∧
    numDigit s.length = max 1 (Nat.clog 10 s.length) := by
  have hlen : (List.insertionSort r s).length = s.length :=
    (List.perm_insertionSort r s).length_eq
  refine ⟨?_, ?_, ?_, ?_, ?_, rfl⟩
  · rw [matchIdsOf, assignFrom_length, hlen]
  · rw [matchIdsOf, assignFrom_map_fst]
  · rw [matchIdsOf, assignFrom_map_fst]
    exact List.sorted_insertionSort r s
  · rw [matchIdsOf, assignFrom_map_snd, hlen]
  · rw [matchIdsOf, assignFrom_map_snd]
    exact (List.nodup_range' _ _).map (midStr_inj _)

/-- C3 witness: the assignment on the concrete match set `[3, 1, 2]`. -/
theorem C3_match_identifier_assignment_witness :
    (matchIdsOf (fun a b : ℕ => a ≤ b) [3, 1, 2]).length = [3, 1, 2].length ∧
    (matchIdsOf (fun a b : ℕ => a ≤ b) [3, 1, 2]).map Prod.fst =
      List.insertionSort (fun a b : ℕ => a ≤ b) [3, 1, 2] ∧
    List.Sorted (fun a b : ℕ => a ≤ b)
      ((matchIdsOf (fun a b : ℕ => a ≤ b) [3, 1, 2]).map Prod.fst) ∧
    (matchIdsOf (fun a b : ℕ => a ≤ b) [3, 1, 2]).map Prod.snd =
      (List.range' 1 [3, 1, 2].length).map (midStr (numDigit [3, 1, 2].length)) ∧
    ((matchIdsOf (fun a b : ℕ => a ≤ b) [3, 1, 2]).map Prod.snd).Nodup ∧
    numDigit [3, 1, 2].length = max 1 (Nat.clog 10 [3, 1, 2].length) :=
  C3_match_identifier_assignment (fun a b : ℕ => a ≤ b) [3, 1, 2]

/-- C4: in deduplication mode `SaveMatchDataSet` builds one shared membership
index: every record's list holds the identifier of each sorted pair once per
endpoint position in which the record occurs, in sorted-pair iteration order;
on the match set `[(1,2), (2,3)]` record 2's list joined with `";"` is
`"mid1;mid2"`. -/
theorem C4_dedup_membership_index :
    (∀ (R : Type) [DecidableEq R] (r : (R × R) → (R × R) → Prop) [DecidableRel r]
      (s : List (R × R)) (rec : R),
      dget (SaveMatchDataSet r s false).1 rec [] =
        (matchIdsOf r s).flatMap (fun pm =>
          (if rec = pm.1.1 then [pm.2] else []) ++
          (if rec = pm.1.2 then [pm.2] else []))) ∧
    matchIdField (SaveMatchDataSet pairLe [(1, 2), (2, 3)] false).1 2 =
      ['m', 'i', 'd', '1', ';', 'm', 'i', 'd', '2'] := by
  have hgen : ∀ (R : Type) (instR : DecidableEq R) (r : (R × R) → (R × R) → Prop)
      (instr : DecidableRel r) (s : List (R × R)) (rec : R),
      dget (SaveMatchDataSet r s false).1 rec [] =
        (matchIdsOf r s).flatMap (fun pm =>
          (if rec = pm.1.1 then [pm.2] else []) ++
          (if rec = pm.1.2 then [pm.2] else [])) := by
    intro R instR r instr s rec
    rw [show SaveMatchDataSet r s false =
        buildMatchIdLists false (matchIdsOf r s) ([], []) from rfl, buildDedup_dget]
    simp [dget, dlookup]
  refine ⟨fun R instR r instr s rec => hgen R instR r instr s rec, ?_⟩
  have hc : Nat.clog 10 2 = 1 := by
    rw [Nat.clog_of_two_le (by norm_num) (by norm_num)]
    norm_num
  have hnd : numDigit 2 = 1 := by
    rw [numDigit, hc]
    simp
  have hsort : List.insertionSort pairLe [((1 : ℕ), (2 : ℕ)), (2, 3)] =
      [(1, 2), (2, 3)] := by decide
  have hd1 : Nat.digits 10 1 = [1] := by simp
  have hd2 : Nat.digits 10 2 = [2] := by simp
  have hm1 : midStr 1 1 = ['m', 'i', 'd', '1'] := by
    rw [midStr, numStr, if_neg (by norm_num), hd1]
    rfl
  have hm2 : midStr 1 2 = ['m', 'i', 'd', '2'] := by
    rw [midStr, numStr, if_neg (by norm_num), hd2]
    rfl
  have hmids : matchIdsOf pairLe [((1 : ℕ), (2 : ℕ)), (2, 3)] =
      [((1, 2), ['m', 'i', 'd', '1']), ((2, 3), ['m', 'i', 'd', '2'])] := by
    rw [matchIdsOf, hsort]
    have hlen : ([((1 : ℕ), (2 : ℕ)), (2, 3)] : List (ℕ × ℕ)).length = 2 := rfl
    rw [hlen, hnd, assignFrom, assignFrom, assignFrom, hm1, hm2]
  rw [show (SaveMatchDataSet pairLe [((1 : ℕ), (2 : ℕ)), (2, 3)] false) =
      buildMatchIdLists false (matchIdsOf pairLe [((1 : ℕ), (2 : ℕ)), (2, 3)])
        ([], []) from rfl, hmids]
  decide

/-- C4 witness: the membership-list equation at a concrete one-pair match
set and record identifier. -/
theorem C4_dedup_membership_index_witness :
    dget (SaveMatchDataSet pairLe [(3, 4)] false).1 9 [] =
      (matchIdsOf pairLe [(3, 4)]).flatMap (fun pm =>
        (if 9 = pm.1.1 then [pm.2] else []) ++
        (if 9 = pm.1.2 then [pm.2] else [])) :=
  C4_dedup_membership_index.1 ℕ pairLe [(3, 4)] 9

/-- C10: `SaveMatchStatusFile` requires every matched pair to be a key of the
weight-vector mapping: when all pairs are present it writes one row per pair
with that pair's summed weight and match identifier, and when some pair is
absent the unguarded lookup raises a key-lookup error (`OutErr.keyError`,
distinct from the validation and I/O errors). -/
theorem C10_status_file_requires_keys {P : Type} [DecidableEq P] (r : P → P → Prop)
    [DecidableRel r] (wdict : List (P × List ℚ)) (s : List P) :
    ((∀ p ∈ s, (dlookup wdict p).isSome) →
      SaveMatchStatusFile r wdict s =
        .ok ((matchIdsOf r s).map (fun pm =>
          (pm.1, ((dlookup wdict pm.1).getD []).sum, pm.2)))) ∧
    ((∃ p ∈ s, dlookup wdict p = none) →
      SaveMatchStatusFile r wdict s = .error .keyError) := by
  constructor
  · intro h
    show statusRows wdict (matchIdsOf r s) = _
    apply statusRows_ok
    intro pm hpm
    have hfst : pm.1 ∈ (matchIdsOf r s).map Prod.fst :=
      List.mem_map_of_mem Prod.fst hpm
    rw [matchIdsOf, assignFrom_map_fst] at hfst
    exact h pm.1 ((List.perm_insertionSort r s).mem_iff.mp hfst)
  · rintro ⟨p, hp, hnone⟩
    show statusRows wdict (matchIdsOf r s) = _
    apply statusRows_err
    have hps : p ∈ (matchIdsOf r s).map Prod.fst := by
      rw [matchIdsOf, assignFrom_map_fst]
      exact (List.perm_insertionSort r s).mem_iff.mpr hp
    obtain ⟨pm, hpm, hfst⟩ := List.mem_map.mp hps
    exact ⟨pm, hpm, by rw [hfst]; exact hnone⟩

/-- C10 witness: the present-keys row equation and the key-error outcome on
concrete inputs. -/
theorem C10_status_file_requires_keys_witness :
    SaveMatchStatusFile (fun a b : ℕ => a ≤ b) [(0, [(2 : ℚ)])] [0] =
      .ok ((matchIdsOf (fun a b : ℕ => a ≤ b) [0]).map (fun pm =>
        (pm.1, ((dlookup [(0, [(2 : ℚ)])] pm.1).getD []).sum, pm.2))) ∧
    SaveMatchStatusFile (fun a b : ℕ => a ≤ b) [(0, [(2 : ℚ)])] [0, 5] =
      .error .keyError :=
  ⟨(C10_status_file_requires_keys (fun a b : ℕ => a ≤ b) [(0, [(2 : ℚ)])] [0]).1
      (by decide),
   (C10_status_file_requires_keys (fun a b : ℕ => a ≤ b) [(0, [(2 : ℚ)])] [0, 5]).2
      ⟨5, by decide, by decide⟩⟩

/-- C8: decoding rows with a repeated record-id-pair key logs a non-fatal
warning and the returned mapping holds the vector of the last occurrence of
the key (last-write-wins); no warning is logged exactly when the keys are all
distinct, and decoding always returns (it never raises). -/
theorem C8_duplicate_key_last_write_wins {K : Type} [DecidableEq K]
    (rows : List (K × List ℚ)) (k : K) :
    dlookup (LoadWeightVectorFile rows).2 k =
      ((rows.filter (fun e => e.1 = k)).map Prod.snd).getLast? ∧
    ((LoadWeightVectorFile rows).1 = [] ↔ (rows.map Prod.fst).Nodup) := by
  constructor
  · rw [show LoadWeightVectorFile rows = loadGo rows ([], []) from rfl, loadGo_dlookup]
    simp [dlookup]
  · rw [show LoadWeightVectorFile rows = loadGo rows ([], []) from rfl,
      loadGo_warnings_nil_iff]
    simp [dlookup]

/-- C8 witness: last-write-wins on a concrete duplicated key. -/
theorem C8_duplicate_key_last_write_wins_witness :
    dlookup (LoadWeightVectorFile [((0 : ℕ), [(1 : ℚ)]), (0, [2])]).2 0 =
      (([((0 : ℕ), [(1 : ℚ)]), (0, [2])].filter (fun e => e.1 = 0)).map
        Prod.snd).getLast? ∧
    ((LoadWeightVectorFile [((0 : ℕ), [(1 : ℚ)]), (0, [2])]).1 = [] ↔
      ([((0 : ℕ), [(1 : ℚ)]), (0, [2])].map Prod.fst).Nodup) :=
  C8_duplicate_key_last_write_wins [((0 : ℕ), [(1 : ℚ)]), (0, [2])] 0

/-- With a positive bin width and the size validation satisfied,
`GenerateHistogram` returns normally (the `assert` never fires). -/
theorem gen_isOk {P : Type} [DecidableEq P] (wdict : List (P × List ℚ)) (bw : ℚ)
    (fn : Option String) (ms : Option (Finset P × Finset P × Finset P))
    (h : 0 < bw) (hsz : sizeOk wdict ms) :
    isOkB (GenerateHistogram wdict bw fn ms) = true := by
  rw [GenerateHistogram_eq_body wdict bw fn ms h hsz]
  cases wdict with
  | nil => rfl
  | cons e rest =>
    rw [histogramBody_ok _ _ _ _ (List.cons_ne_nil e rest)]
    rfl

/-- C5 (amended): a genuine partition passes validation and the call returns
normally; the validation compares only the summed cardinalities of the three
sets with the mapping's size, so a summed-cardinality mismatch is a fatal
validation error (before any output), while a malformed partition whose
summed cardinalities happen to match passes undetected. -/
theorem C5_partition_validation {P : Type} [DecidableEq P] (wdict : List (P × List ℚ))
    (bw : ℚ) (fn : Option String) (m0 m1 m2 : Finset P) (h : 0 < bw) :
    (GoodPartition wdict m0 m1 m2 →
      isOkB (GenerateHistogram wdict bw fn (some (m0, m1, m2))) = true) ∧
    (wdict.length ≠ m0.card + m1.card + m2.card →
      GenerateHistogram wdict bw fn (some (m0, m1, m2)) = .error .validation) := by
  constructor
  · intro hg
    exact gen_isOk wdict bw fn (some (m0, m1, m2)) h
      (goodPartition_sizeOk wdict m0 m1 m2 hg)
  · intro hne
    unfold GenerateHistogram
    rw [if_neg (not_le.mpr h)]
    show (if wdict.length = m0.card + m1.card + m2.card
      then histogramBody wdict bw fn (some (m0, m1, m2))
      else Except.error OutErr.validation) = Except.error OutErr.validation
    rw [if_neg hne]

/-- C5 witness: a genuine one-set partition passes, and a size mismatch is a
validation error, on concrete inputs. -/
theorem C5_partition_validation_witness :
    (GoodPartition [((0 : ℕ), [(0 : ℚ)])] {0} ∅ ∅ →
      isOkB (GenerateHistogram [((0 : ℕ), [(0 : ℚ)])] 1 none (some ({0}, ∅, ∅))) =
        true) ∧
    (([((0 : ℕ), [(0 : ℚ)])] : List (ℕ × List ℚ)).length ≠
        ({0} : Finset ℕ).card + ({1} : Finset ℕ).card + (∅ : Finset ℕ).card →
      GenerateHistogram [((0 : ℕ), [(0 : ℚ)])] 1 none (some ({0}, {1}, ∅)) =
        .error .validation) :=
  ⟨(C5_partition_validation [((0 : ℕ), [(0 : ℚ)])] 1 none {0} ∅ ∅ (by norm_num)).1,
   (C5_partition_validation [((0 : ℕ), [(0 : ℚ)])] 1 none {0} {1} ∅ (by norm_num)).2⟩

/-- C5 counterexample: the mapping has keys 0 and 1; the supplied sets
`({0}, {0}, ∅)` duplicate key 0 and miss key 1, yet their summed
cardinalities match the mapping's size, so validation passes and the call
returns normally — no fatal validation error is raised. -/
theorem C5_partition_validation_counterexample :
    isOkB (GenerateHistogram [((0 : ℕ), [(0 : ℚ)]), (1, [0])] 1 none
      (some ({0}, {0}, ∅))) = true ∧
    (0 : ℕ) ∈ ({0} : Finset ℕ) ∧
    (1 : ℕ) ∈ ([((0 : ℕ), [(0 : ℚ)]), (1, [0])].map Prod.fst) ∧
    (1 : ℕ) ∉ (({0} : Finset ℕ) ∪ {0} ∪ ∅) := by
  refine ⟨gen_isOk _ 1 none _ (by norm_num) ?_, by decide, by decide, by decide⟩
  show ([((0 : ℕ), [(0 : ℚ)]), (1, [0])] : List (ℕ × List ℚ)).length =
    ({0} : Finset ℕ).card + ({0} : Finset ℕ).card + (∅ : Finset ℕ).card
  decide

/-- C6: for a non-empty mapping, positive bin width, and (when supplied) a
genuine partition, `GenerateHistogram` renders exactly the lines of
`specHistoLines`: scale factor `(80 - reserved) / max_combined_count` with
reserved 19 (no partition), 30 (possible-match set empty) or 41 (otherwise),
each data row's bar being `floor(combined_count * scale_factor)` stars even
in the partitioned shapes, and the rows ordered by ascending bin key. -/
theorem C6_scale_and_rows {P : Type} [DecidableEq P] (wdict : List (P × List ℚ))
    (bw : ℚ) (fn : Option String) (ms : Option (Finset P × Finset P × Finset P))
    (h : 0 < bw) (hne : wdict ≠ []) (hp : PartitionHyp wdict ms) :
    GenerateHistogram wdict bw fn ms =
      .ok ⟨[], specHistoLines wdict bw ms,
        fn.map (fun nm => (nm, specHistoLines wdict bw ms)), wdict⟩ ∧
    List.Sorted (· ≤ ·) (sortKeys (scanGo ms bw wdict initScan).histo) := by
  have hsz : sizeOk wdict ms := by
    cases ms with
    | none => trivial
    | some t =>
      obtain ⟨m0, m1, m2⟩ := t
      exact goodPartition_sizeOk wdict m0 m1 m2 hp
  constructor
  · rw [GenerateHistogram_eq_body wdict bw fn ms h hsz,
      histogramBody_ok wdict bw fn ms hne]
    have hspec : specHistoLines wdict bw ms =
        histoLinesWith ms (scanGo ms bw wdict initScan) (reservedSpec ms) := by
      unfold specHistoLines
      rw [popReinsert_eq]
    rw [hspec, reservedWidth_eq_spec wdict bw ms hp]
  · exact List.sorted_insertionSort (fun a b : ℚ => a ≤ b) _

/-- C6 witness: the rendering equation on a concrete two-entry mapping with
a genuine partition whose possible-match set is empty. -/
theorem C6_scale_and_rows_witness :
    GenerateHistogram [((0 : ℕ), [(0 : ℚ)]), (1, [1])] 1 none
        (some ({0}, {1}, ∅)) =
      .ok ⟨[], specHistoLines [((0 : ℕ), [(0 : ℚ)]), (1, [1])] 1 (some ({0}, {1}, ∅)),
        Option.map (fun nm =>
          (nm, specHistoLines [((0 : ℕ), [(0 : ℚ)]), (1, [1])] 1
            (some ({0}, {1}, ∅)))) none,
        [((0 : ℕ), [(0 : ℚ)]), (1, [1])]⟩ ∧
    List.Sorted (· ≤ ·) (sortKeys (scanGo (some ({0}, {1}, ∅)) 1
      [((0 : ℕ), [(0 : ℚ)]), (1, [1])] initScan).histo) :=
  C6_scale_and_rows [((0 : ℕ), [(0 : ℚ)]), (1, [1])] 1 none (some ({0}, {1}, ∅))
    (by norm_num) (by simp)
    (by
      show GoodPartition [((0 : ℕ), [(0 : ℚ)]), (1, [1])] {0} {1} ∅
      unfold GoodPartition
      decide)
